import Mathlib

/-!
Shallow embedding of the ThorCam example scripts
(src/opencv_mp4_writer_example.py and src/video.py).

Both scripts are linear call sequences against the Thorlabs camera SDK,
OpenCV and matplotlib.  We model each program as a function from its
environment inputs (the discovered camera list, the stream of poll
results, and the iteration index at which an external interrupt fires)
to the trace of externally visible actions it performs, together with
an exit status.  Raw pixel buffers are lists of natural numbers; the
opaque color-processing transform is a parameter of the model.
-/

/-- A camera handle as the scripts read it: whether the sensor reports a
Bayer color filter array (src/opencv_mp4_writer_example.py line 57) and
its native bit depth (line 54). -/
structure Cam where
  isColor : Bool
  bitDepth : Nat
deriving DecidableEq, Repr

/-- A raw frame buffer: the flat list of sample values
(frame.image_buffer). -/
abbrev Buf : Type := List Nat

/-- Monochrome 8-bit conversion from src/opencv_mp4_writer_example.py
line 95: image_data >> (bit_depth - 8), applied samplewise. -/
def mono_to_8bpp (bitDepth v : Nat) : Nat :=
  v >>> (bitDepth - 8)

/-- The mono branch of the acquisition loop (line 95) applies the shift
to every sample of the buffer. -/
def convertMono (bitDepth : Nat) (buf : Buf) : Buf :=
  buf.map (mono_to_8bpp bitDepth)

/-- Externally visible actions of the MP4 writer script, in program
order: arming, color-SDK and processor creation, sink opening, the
software trigger, polls (with whether a frame arrived), sink writes,
and the teardown calls of the finally block. -/
inductive Act where
  | logNoCameras
  | arm
  | createColorSdk
  | createProcessor
  | openSink
  | trigger
  | poll (got : Bool)
  | write (img : Buf)
  | disarm
  | releaseSink
  | disposeProcessor
  | disposeColorSdk
deriving DecidableEq

/-- Exit status of the MP4 writer session. -/
inductive Exit where
  | success
  | timeout
  | interrupted
  | noCamera
deriving DecidableEq, Repr

/-- The acquisition loop of src/opencv_mp4_writer_example.py lines
81..97: while frames_counted < NUMBER_OF_IMAGES, poll; a null poll
raises TimeoutError; otherwise convert the buffer and write it to the
sink.  `remaining` counts the frames still to acquire, `i` is the index
into the poll stream, and `intr` is the iteration at which an external
interrupt (KeyboardInterrupt) fires, if any. -/
def mp4LoopGo (polls : Nat → Option Buf) (conv : Buf → Buf)
    (intr : Option Nat) : Nat → Nat → List Act × Exit
  | 0, _ => ([], Exit.success)
  | remaining + 1, i =>
    if intr = some i then ([], Exit.interrupted)
    else
      match polls i with
      | none => ([Act.poll false], Exit.timeout)
      | some b =>
        let r := mp4LoopGo polls conv intr remaining (i + 1)
        (Act.poll true :: Act.write (conv b) :: r.1, r.2)

/-- The MP4 writer session, src/opencv_mp4_writer_example.py lines
37..111.  With zero cameras discovered it prints the error and the
subscript cameras[0] of the empty list then raises IndexError, so the
program aborts before opening or arming anything.  Otherwise: arm, the
color-SDK and mono-to-color processor are created exactly when the
sensor is Bayer (lines 57..68), the sink is opened, the trigger issued,
the loop runs, and the finally block (lines 98..111) disarms, releases
the sink, and disposes the color processor then the color SDK when they
were created. -/
def mp4Session (cams : List Cam) (colorXform : Buf → Buf)
    (polls : Nat → Option Buf) (intr : Option Nat) (n : Nat) :
    List Act × Exit :=
  match cams with
  | [] => ([Act.logNoCameras], Exit.noCamera)
  | cam :: _ =>
    let conv := if cam.isColor then colorXform else convertMono cam.bitDepth
    let setup := [Act.arm]
      ++ (if cam.isColor then [Act.createColorSdk, Act.createProcessor] else [])
      ++ [Act.openSink, Act.trigger]
    let body := mp4LoopGo polls conv intr n 0
    let teardown := [Act.disarm, Act.releaseSink]
      ++ (if cam.isColor then [Act.disposeProcessor, Act.disposeColorSdk] else [])
    (setup ++ body.1 ++ teardown, body.2)

/-- The list of buffers written to the sink in a trace. -/
def writesOf (t : List Act) : List Buf :=
  t.filterMap fun a => match a with | Act.write b => some b | _ => none

/-- Number of polls performed in a trace of the MP4 writer. -/
def pollsSeen (t : List Act) : Nat :=
  t.countP fun a => match a with | Act.poll _ => true | _ => false

/-- The trace fragment produced by `n` consecutive successful loop
iterations starting at poll index `i`: each iteration polls and then
writes the converted buffer. -/
def pollWriteBlocks (conv : Buf → Buf) (bufs : Nat → Buf) :
    Nat → Nat → List Act
  | 0, _ => []
  | n + 1, i =>
    Act.poll true :: Act.write (conv (bufs i)) :: pollWriteBlocks conv bufs n (i + 1)

/-- Minimum sample value of a buffer (0 for the empty buffer), as the
min-max normalization of cv2.normalize reads it. -/
def listMin : List Nat → Nat
  | [] => 0
  | [x] => x
  | x :: y :: t => min x (listMin (y :: t))

/-- Maximum sample value of a buffer (0 for the empty buffer). -/
def listMax : List Nat → Nat
  | [] => 0
  | [x] => x
  | x :: y :: t => max x (listMax (y :: t))

/-- Models the OpenCV collaborator call cv2.normalize(image, None, 0,
255, cv2.NORM_MINMAX) of src/video.py line 23 on one sample: the
observed range [mn, mx] is affinely rescaled to [0, 255] with rounding
to nearest, and a constant frame (mx = mn) gets scale 0 and shift 0,
so every sample maps to 0 rather than failing. -/
def normEntry (mn mx x : Nat) : Nat :=
  if mx = mn then 0
  else (2 * ((x - mn) * 255) + (mx - mn)) / (2 * (mx - mn))

/-- normalize_image of src/video.py lines 21..23: min-max normalize the
whole buffer to the range 0..255. -/
def normMinMax (l : Buf) : Buf :=
  l.map (normEntry (listMin l) (listMax l))

/-- Externally visible actions of the streaming/display script
src/video.py: arming, the software trigger, polls, the initial imshow
of the first frame, per-frame display updates, the per-iteration log
when no frame arrives, and disarm. -/
inductive VAct where
  | logNoCameras
  | arm
  | trigger
  | poll (got : Bool)
  | showInit (img : Buf)
  | display (img : Buf)
  | logNoFrame
  | disarm
deriving DecidableEq

/-- Exit status of the streaming script: no camera found, interrupted
during the startup first-frame wait (src/video.py lines 57..58, outside
the try/finally), or interrupted during the display loop (caught at
line 78, finally at line 80). -/
inductive VExit where
  | noCamera
  | interruptedStartup
  | interrupted
deriving DecidableEq

/-- The first-frame wait of src/video.py lines 57..58: poll until a
frame arrives, with no logging and no display of any kind.  `fuel` is
the number of polls left before the external interrupt fires; returning
none means the interrupt arrived first.  On success, get_camera_frame
(lines 25..33) has already normalized the frame. -/
def startupWait (polls : Nat → Option Buf) : Nat → Nat → List VAct × Option (Buf × Nat)
  | 0, _ => ([], none)
  | fuel + 1, i =>
    match polls i with
    | some b => ([VAct.poll true], some (normMinMax b, i + 1))
    | none =>
      let r := startupWait polls fuel (i + 1)
      (VAct.poll false :: r.1, r.2)

/-- The display loop of src/video.py lines 70..77: poll forever; a
frame updates the display with its normalized image, a null poll is
logged and the loop continues.  `fuel` is the number of iterations
until the external interrupt fires (the only way the loop ends). -/
def displayLoop (polls : Nat → Option Buf) : Nat → Nat → List VAct
  | 0, _ => []
  | fuel + 1, i =>
    match polls i with
    | some b => VAct.poll true :: VAct.display (normMinMax b) :: displayLoop polls fuel (i + 1)
    | none => VAct.poll false :: VAct.logNoFrame :: displayLoop polls fuel (i + 1)

/-- main of src/video.py lines 35..84.  Zero cameras: print and return
before arming.  Otherwise configure, arm, trigger, then the startup
first-frame wait; an interrupt during that wait propagates with no
disarm call, since the wait sits outside the try/finally.  Once a first
frame arrives the plot is initialized with it and the display loop runs
inside try/finally, so the interrupt that ends it is followed by
disarm.  `intr` is the global poll index at which the external
interrupt fires. -/
def videoMain (cams : List Cam) (polls : Nat → Option Buf) (intr : Nat) :
    List VAct × VExit :=
  match cams with
  | [] => ([VAct.logNoCameras], VExit.noCamera)
  | _ :: _ =>
    let sw := startupWait polls intr 0
    match sw.2 with
    | none => ([VAct.arm, VAct.trigger] ++ sw.1, VExit.interruptedStartup)
    | some (ff, j) =>
      ([VAct.arm, VAct.trigger] ++ sw.1 ++ [VAct.showInit ff]
        ++ displayLoop polls (intr - j) j ++ [VAct.disarm], VExit.interrupted)

/-- True exactly for poll actions of the streaming script. -/
def isPollAct : VAct → Bool
  | VAct.poll _ => true
  | _ => false

/-- True exactly for display-update actions of the streaming script. -/
def isDisplayAct : VAct → Bool
  | VAct.display _ => true
  | _ => false

theorem shiftRight_eq_div (v k : Nat) : v >>> k = v / 2 ^ k :=
  Nat.shiftRight_eq_div_pow v k

theorem mul_pred_div (a b : Nat) (ha : 0 < a) (hb : 0 < b) :
    (a * b - 1) / a = b - 1 := by
  obtain ⟨b0, rfl⟩ : ∃ b0, b = b0 + 1 := ⟨b - 1, by omega⟩
  have hm : a * (b0 + 1) = a * b0 + a := by ring
  have h : a * (b0 + 1) - 1 = (a - 1) + a * b0 := by omega
  rw [h, Nat.add_mul_div_left _ _ ha, Nat.div_eq_of_lt (by omega)]
  omega

/-- C1: for a monochrome frame with native bit depth B at least 8, the
converted 8-bit value equals V >> (B-8), which is the truncating
division V / 2^(B-8) (no rounding); 0 converts to 0 and the full-scale
value 2^B - 1 converts to 255; the loop applies this conversion to
every sample of the buffer. -/
theorem C1_mono_truncation (B V : Nat) (hB : 8 ≤ B) :
    mono_to_8bpp B V = V / 2 ^ (B - 8)
    ∧ mono_to_8bpp B 0 = 0
    ∧ mono_to_8bpp B (2 ^ B - 1) = 255
    ∧ (∀ buf : Buf, convertMono B buf = buf.map fun v => v / 2 ^ (B - 8)) := by
  have hdiv : ∀ v : Nat, mono_to_8bpp B v = v / 2 ^ (B - 8) := fun v =>
    shiftRight_eq_div v (B - 8)
  refine ⟨hdiv V, by simp [hdiv 0], ?_, ?_⟩
  · rw [hdiv]
    have hsplit : 2 ^ B = 2 ^ (B - 8) * 2 ^ 8 := by
      rw [← pow_add]
      congr 1
      omega
    rw [hsplit, mul_pred_div _ _ (Nat.pos_pow_of_pos _ (by omega)) (by positivity)]
    norm_num
  · intro buf
    unfold convertMono
    exact List.map_congr_left fun v _ => hdiv v

/-- Witness for C1 at B = 10, 12 and 16 with boundary sample values. -/
theorem C1_mono_truncation_witness :
    mono_to_8bpp 10 (2 ^ 10 - 1) = 255
    ∧ mono_to_8bpp 12 (2 ^ 12 - 1) = 255
    ∧ mono_to_8bpp 16 (2 ^ 16 - 1) = 255
    ∧ mono_to_8bpp 10 0 = 0
    ∧ mono_to_8bpp 12 777 = 777 / 2 ^ 4 :=
  ⟨(C1_mono_truncation 10 0 (by decide)).2.2.1,
   (C1_mono_truncation 12 0 (by decide)).2.2.1,
   (C1_mono_truncation 16 0 (by decide)).2.2.1,
   (C1_mono_truncation 10 0 (by decide)).2.1,
   (C1_mono_truncation 12 777 (by decide)).1⟩

theorem writesOf_append (s t : List Act) :
    writesOf (s ++ t) = writesOf s ++ writesOf t := by
  unfold writesOf
  exact List.filterMap_append s t _

theorem pollsSeen_append (s t : List Act) :
    pollsSeen (s ++ t) = pollsSeen s + pollsSeen t := by
  unfold pollsSeen
  exact List.countP_append _ s t

theorem mp4LoopGo_all_some (polls : Nat → Option Buf) (conv : Buf → Buf)
    (bufs : Nat → Buf) :
    ∀ n i, (∀ j, j < n → polls (i + j) = some (bufs (i + j))) →
    mp4LoopGo polls conv none n i = (pollWriteBlocks conv bufs n i, Exit.success) := by
  intro n
  induction n with
  | zero => intro i _; rfl
  | succ m ih =>
    intro i h
    have h0 : polls i = some (bufs i) := by
      have := h 0 (by omega)
      simpa using this
    unfold mp4LoopGo
    rw [if_neg (by simp)]
    rw [h0]
    have ih2 := ih (i + 1) fun j hj => by
      have := h (j + 1) (by omega)
      have hidx : i + (j + 1) = i + 1 + j := by omega
      rwa [hidx] at this
    rw [ih2]
    rfl

theorem mp4LoopGo_timeout_at (polls : Nat → Option Buf) (conv : Buf → Buf)
    (bufs : Nat → Buf) :
    ∀ k n i, k < n → (∀ j, j < k → polls (i + j) = some (bufs (i + j))) →
    polls (i + k) = none →
    mp4LoopGo polls conv none n i
      = (pollWriteBlocks conv bufs k i ++ [Act.poll false], Exit.timeout) := by
  intro k
  induction k with
  | zero =>
    intro n i hn _ hnone
    obtain ⟨m, rfl⟩ : ∃ m, n = m + 1 := ⟨n - 1, by omega⟩
    have h0 : polls i = none := by simpa using hnone
    unfold mp4LoopGo
    rw [if_neg (by simp), h0]
    rfl
  | succ k0 ih =>
    intro n i hn hsome hnone
    obtain ⟨m, rfl⟩ : ∃ m, n = m + 1 := ⟨n - 1, by omega⟩
    have h0 : polls i = some (bufs i) := by
      have := hsome 0 (by omega)
      simpa using this
    unfold mp4LoopGo
    rw [if_neg (by simp), h0]
    have ih2 := ih m (i + 1) (by omega)
      (fun j hj => by
        have := hsome (j + 1) (by omega)
        have hidx : i + (j + 1) = i + 1 + j := by omega
        rwa [hidx] at this)
      (by
        have hidx : i + (k0 + 1) = i + 1 + k0 := by omega
        rwa [hidx] at hnone)
    rw [ih2]
    rfl

theorem writesOf_blocks (conv : Buf → Buf) (bufs : Nat → Buf) :
    ∀ n i, writesOf (pollWriteBlocks conv bufs n i)
      = (List.range n).map fun j => conv (bufs (i + j)) := by
  intro n
  induction n with
  | zero => intro i; rfl
  | succ m ih =>
    intro i
    have : writesOf (pollWriteBlocks conv bufs (m + 1) i)
        = conv (bufs i) :: writesOf (pollWriteBlocks conv bufs m (i + 1)) := rfl
    rw [this, ih (i + 1), List.range_succ_eq_map, List.map_cons, List.map_map]
    refine congrArg₂ _ (by simp) ?_
    refine List.map_congr_left fun j _ => ?_
    have : i + 1 + j = i + Nat.succ j := by omega
    simp [Function.comp, this]

theorem pollsSeen_blocks (conv : Buf → Buf) (bufs : Nat → Buf) :
    ∀ n i, pollsSeen (pollWriteBlocks conv bufs n i) = n := by
  intro n
  induction n with
  | zero => intro i; rfl
  | succ m ih =>
    intro i
    rw [pollWriteBlocks]
    unfold pollsSeen
    rw [List.countP_cons, List.countP_cons]
    have := ih (i + 1)
    unfold pollsSeen at this
    simp [this]

theorem writesOf_setup (c : Bool) :
    writesOf ([Act.arm]
      ++ (if c then [Act.createColorSdk, Act.createProcessor] else [])
      ++ [Act.openSink, Act.trigger]) = [] := by
  cases c <;> rfl

theorem writesOf_teardown (c : Bool) :
    writesOf ([Act.disarm, Act.releaseSink]
      ++ (if c then [Act.disposeProcessor, Act.disposeColorSdk] else [])) = [] := by
  cases c <;> rfl

theorem mp4Session_cons (cam : Cam) (rest : List Cam) (colorXform : Buf → Buf)
    (polls : Nat → Option Buf) (intr : Option Nat) (n : Nat) :
    mp4Session (cam :: rest) colorXform polls intr n
      = (([Act.arm]
            ++ (if cam.isColor then [Act.createColorSdk, Act.createProcessor] else [])
            ++ [Act.openSink, Act.trigger])
          ++ (mp4LoopGo polls
              (if cam.isColor then colorXform else convertMono cam.bitDepth) intr n 0).1
          ++ ([Act.disarm, Act.releaseSink]
            ++ (if cam.isColor then [Act.disposeProcessor, Act.disposeColorSdk] else [])),
         (mp4LoopGo polls
            (if cam.isColor then colorXform else convertMono cam.bitDepth) intr n 0).2) :=
  rfl

/-- C2: in bounded mode with target count n, if the first n polls all
return frames then the session exits successfully and the sink receives
exactly n writes, one converted frame per poll in order; if instead
poll k (k < n) returns null after k successful polls, the session exits
with the timeout error having written exactly the k frames already
converted, in order, which stay written (no rollback). -/
theorem C2_bounded_frame_count (cam : Cam) (rest : List Cam)
    (colorXform : Buf → Buf) (polls : Nat → Option Buf) (bufs : Nat → Buf)
    (n : Nat) :
    ((∀ j, j < n → polls j = some (bufs j)) →
      (mp4Session (cam :: rest) colorXform polls none n).2 = Exit.success
      ∧ writesOf (mp4Session (cam :: rest) colorXform polls none n).1
          = (List.range n).map (fun j =>
              (if cam.isColor then colorXform else convertMono cam.bitDepth) (bufs j))
      ∧ (writesOf (mp4Session (cam :: rest) colorXform polls none n).1).length = n)
    ∧ (∀ k, k < n → (∀ j, j < k → polls j = some (bufs j)) → polls k = none →
      (mp4Session (cam :: rest) colorXform polls none n).2 = Exit.timeout
      ∧ writesOf (mp4Session (cam :: rest) colorXform polls none n).1
          = (List.range k).map (fun j =>
              (if cam.isColor then colorXform else convertMono cam.bitDepth) (bufs j))
      ∧ (writesOf (mp4Session (cam :: rest) colorXform polls none n).1).length = k) := by
  constructor
  · intro h
    have hbody := mp4LoopGo_all_some polls
      (if cam.isColor then colorXform else convertMono cam.bitDepth) bufs n 0
      (fun j hj => by simpa using h j hj)
    refine ⟨?_, ?_, ?_⟩
    · rw [mp4Session_cons, hbody]
    · rw [mp4Session_cons, hbody]
      show writesOf (_ ++ pollWriteBlocks _ bufs n 0 ++ _) = _
      rw [writesOf_append, writesOf_append, writesOf_setup, writesOf_teardown,
        writesOf_blocks]
      simp
    · rw [mp4Session_cons, hbody]
      show (writesOf (_ ++ pollWriteBlocks _ bufs n 0 ++ _)).length = n
      rw [writesOf_append, writesOf_append, writesOf_setup, writesOf_teardown,
        writesOf_blocks]
      simp
  · intro k hk hsome hnone
    have hbody := mp4LoopGo_timeout_at polls
      (if cam.isColor then colorXform else convertMono cam.bitDepth) bufs k n 0 hk
      (fun j hj => by simpa using hsome j hj) (by simpa using hnone)
    refine ⟨?_, ?_, ?_⟩
    · rw [mp4Session_cons, hbody]
    · rw [mp4Session_cons, hbody]
      show writesOf (_ ++ (pollWriteBlocks _ bufs k 0 ++ [Act.poll false]) ++ _) = _
      rw [writesOf_append, writesOf_append, writesOf_setup, writesOf_teardown,
        writesOf_append, writesOf_blocks]
      simp [writesOf]
    · rw [mp4Session_cons, hbody]
      show (writesOf (_ ++ (pollWriteBlocks _ bufs k 0 ++ [Act.poll false]) ++ _)).length = k
      rw [writesOf_append, writesOf_append, writesOf_setup, writesOf_teardown,
        writesOf_append, writesOf_blocks]
      simp [writesOf]

/-- Witness for C2: a mono camera with three frames available and
target count 3 writes exactly three converted frames; with a null at
poll 1 and target 3 it times out after writing exactly one frame. -/
theorem C2_bounded_frame_count_witness :
    ((mp4Session [⟨false, 10⟩] id (fun _ => some [4]) none 3).2 = Exit.success
      ∧ (writesOf (mp4Session [⟨false, 10⟩] id (fun _ => some [4]) none 3).1).length = 3)
    ∧ ((mp4Session [⟨false, 10⟩] id
          (fun i => if i = 0 then some [4] else none) none 3).2 = Exit.timeout
      ∧ (writesOf (mp4Session [⟨false, 10⟩] id
          (fun i => if i = 0 then some [4] else none) none 3).1).length = 1) := by
  have h1 := (C2_bounded_frame_count ⟨false, 10⟩ [] id (fun _ => some [4])
    (fun _ => [4]) 3).1 (fun j _ => rfl)
  have h2 := (C2_bounded_frame_count ⟨false, 10⟩ [] id
    (fun i => if i = 0 then some [4] else none) (fun _ => [4]) 3).2 1 (by omega)
    (fun j hj => by interval_cases j; rfl) (by rfl)
  exact ⟨⟨h1.1, h1.2.2⟩, ⟨h2.1, h2.2.2⟩⟩

theorem mp4LoopGo_acts (polls : Nat → Option Buf) (conv : Buf → Buf)
    (intr : Option Nat) :
    ∀ n i a, a ∈ (mp4LoopGo polls conv intr n i).1 →
      (∃ b, a = Act.poll b) ∨ ∃ bf, a = Act.write bf := by
  intro n
  induction n with
  | zero =>
    intro i a h
    simp [mp4LoopGo] at h
  | succ m ih =>
    intro i a h
    rw [mp4LoopGo] at h
    by_cases hi : intr = some i
    · rw [if_pos hi] at h
      simp at h
    · rw [if_neg hi] at h
      cases hp : polls i with
      | none =>
        rw [hp] at h
        simp at h
        exact Or.inl ⟨false, h⟩
      | some b =>
        rw [hp] at h
        simp at h
        rcases h with h | h | h
        · exact Or.inl ⟨true, h⟩
        · exact Or.inr ⟨conv b, h⟩
        · exact ih (i + 1) a h

theorem teardown_notin_setup (c : Bool) (x : Act)
    (hx : x = Act.disarm ∨ x = Act.releaseSink ∨ x = Act.disposeProcessor
      ∨ x = Act.disposeColorSdk) :
    x ∉ ([Act.arm]
      ++ (if c then [Act.createColorSdk, Act.createProcessor] else [])
      ++ [Act.openSink, Act.trigger]) := by
  rcases hx with rfl | rfl | rfl | rfl <;> cases c <;> decide

theorem teardown_notin_loop (polls : Nat → Option Buf) (conv : Buf → Buf)
    (intr : Option Nat) (n i : Nat) (x : Act)
    (hx : x = Act.disarm ∨ x = Act.releaseSink ∨ x = Act.disposeProcessor
      ∨ x = Act.disposeColorSdk) :
    x ∉ (mp4LoopGo polls conv intr n i).1 := by
  intro hmem
  rcases mp4LoopGo_acts polls conv intr n i x hmem with ⟨b, hb⟩ | ⟨bf, hbf⟩ <;>
    rcases hx with rfl | rfl | rfl | rfl <;> simp_all

/-- C3: on every exit path of the bounded session (success, frame
timeout, or interrupt), the trace ends with the teardown sequence
disarm, release sink, then, exactly when a color processor was created,
dispose processor followed by dispose of its owning SDK handle; none of
those four actions occurs anywhere earlier in the trace. -/
theorem C3_teardown_order (cam : Cam) (rest : List Cam) (colorXform : Buf → Buf)
    (polls : Nat → Option Buf) (intr : Option Nat) (n : Nat) :
    ∃ pre, (mp4Session (cam :: rest) colorXform polls intr n).1
        = pre ++ ([Act.disarm, Act.releaseSink]
            ++ (if cam.isColor then [Act.disposeProcessor, Act.disposeColorSdk] else []))
      ∧ Act.disarm ∉ pre ∧ Act.releaseSink ∉ pre
      ∧ Act.disposeProcessor ∉ pre ∧ Act.disposeColorSdk ∉ pre := by
  refine ⟨([Act.arm]
      ++ (if cam.isColor then [Act.createColorSdk, Act.createProcessor] else [])
      ++ [Act.openSink, Act.trigger])
    ++ (mp4LoopGo polls
        (if cam.isColor then colorXform else convertMono cam.bitDepth) intr n 0).1, ?_, ?_, ?_, ?_, ?_⟩
  · rw [mp4Session_cons, List.append_assoc]
  all_goals
    intro hmem
    rcases List.mem_append.mp hmem with hs | hl
  · exact teardown_notin_setup cam.isColor _ (by simp) hs
  · exact teardown_notin_loop _ _ _ _ _ _ (by simp) hl
  · exact teardown_notin_setup cam.isColor _ (by simp) hs
  · exact teardown_notin_loop _ _ _ _ _ _ (by simp) hl
  · exact teardown_notin_setup cam.isColor _ (by simp) hs
  · exact teardown_notin_loop _ _ _ _ _ _ (by simp) hl
  · exact teardown_notin_setup cam.isColor _ (by simp) hs
  · exact teardown_notin_loop _ _ _ _ _ _ (by simp) hl

/-- C5 counterexample: in a concrete color session (one camera with a
Bayer sensor, first poll times out) the camera is disarmed strictly
before the color processor is disposed, so the claim that both color
resources are disposed before the camera is disarmed is false. -/
theorem C5_counterexample :
    Act.disarm ∈ (mp4Session [⟨true, 12⟩] id (fun _ => none) none 1).1
    ∧ Act.disposeProcessor ∈ (mp4Session [⟨true, 12⟩] id (fun _ => none) none 1).1
    ∧ Act.disposeColorSdk ∈ (mp4Session [⟨true, 12⟩] id (fun _ => none) none 1).1
    ∧ (mp4Session [⟨true, 12⟩] id (fun _ => none) none 1).1.count Act.disarm = 1
    ∧ (mp4Session [⟨true, 12⟩] id (fun _ => none) none 1).1.count Act.disposeProcessor = 1
    ∧ (mp4Session [⟨true, 12⟩] id (fun _ => none) none 1).1.count Act.disposeColorSdk = 1
    ∧ List.indexOf Act.disarm (mp4Session [⟨true, 12⟩] id (fun _ => none) none 1).1
        < List.indexOf Act.disposeProcessor (mp4Session [⟨true, 12⟩] id (fun _ => none) none 1).1
    ∧ List.indexOf Act.disarm (mp4Session [⟨true, 12⟩] id (fun _ => none) none 1).1
        < List.indexOf Act.disposeColorSdk (mp4Session [⟨true, 12⟩] id (fun _ => none) none 1).1 := by
  decide

/-- C5 amended: in every color session the camera is disarmed first,
and only afterwards are the color processor and then its owning SDK
handle disposed; none of those actions occurs before the teardown. -/
theorem C5_amended_disarm_before_dispose (cam : Cam) (rest : List Cam)
    (colorXform : Buf → Buf) (polls : Nat → Option Buf) (intr : Option Nat)
    (n : Nat) (hc : cam.isColor = true) :
    ∃ pre, (mp4Session (cam :: rest) colorXform polls intr n).1
        = pre ++ [Act.disarm, Act.releaseSink, Act.disposeProcessor, Act.disposeColorSdk]
      ∧ Act.disarm ∉ pre ∧ Act.disposeProcessor ∉ pre ∧ Act.disposeColorSdk ∉ pre := by
  obtain ⟨pre, heq, h1, h2, h3, h4⟩ :=
    C3_teardown_order cam rest colorXform polls intr n
  rw [hc] at heq
  exact ⟨pre, heq, h1, h3, h4⟩

/-- Witness for C5 amended at a concrete color session. -/
theorem C5_amended_witness :
    ∃ pre, (mp4Session [⟨true, 12⟩] id (fun _ => some [7]) none 1).1
        = pre ++ [Act.disarm, Act.releaseSink, Act.disposeProcessor, Act.disposeColorSdk]
      ∧ Act.disarm ∉ pre ∧ Act.disposeProcessor ∉ pre ∧ Act.disposeColorSdk ∉ pre :=
  C5_amended_disarm_before_dispose ⟨true, 12⟩ [] id (fun _ => some [7]) none 1 rfl

theorem count_loop_zero (polls : Nat → Option Buf) (conv : Buf → Buf)
    (intr : Option Nat) (n i : Nat) (x : Act)
    (h1 : ∀ b, x ≠ Act.poll b) (h2 : ∀ bf, x ≠ Act.write bf) :
    (mp4LoopGo polls conv intr n i).1.count x = 0 :=
  List.count_eq_zero.mpr fun hmem => by
    rcases mp4LoopGo_acts polls conv intr n i x hmem with ⟨b, hb⟩ | ⟨bf, hbf⟩
    · exact h1 b hb
    · exact h2 bf hbf

/-- C8: a color-processor exists if and only if the sensor is Bayer.
In a color session the color SDK handle and the processor are created
exactly once each, at session start right after arming and before any
polling, and each is disposed exactly once; in a mono session none of
the four color-resource actions ever occurs. -/
theorem C8_processor_iff_color (cam : Cam) (rest : List Cam)
    (colorXform : Buf → Buf) (polls : Nat → Option Buf) (intr : Option Nat)
    (n : Nat) :
    (cam.isColor = true →
      (∃ s, (mp4Session (cam :: rest) colorXform polls intr n).1
          = [Act.arm, Act.createColorSdk, Act.createProcessor, Act.openSink,
              Act.trigger] ++ s
        ∧ Act.createProcessor ∉ s ∧ Act.createColorSdk ∉ s)
      ∧ (mp4Session (cam :: rest) colorXform polls intr n).1.count Act.createColorSdk = 1
      ∧ (mp4Session (cam :: rest) colorXform polls intr n).1.count Act.createProcessor = 1
      ∧ (mp4Session (cam :: rest) colorXform polls intr n).1.count Act.disposeProcessor = 1
      ∧ (mp4Session (cam :: rest) colorXform polls intr n).1.count Act.disposeColorSdk = 1)
    ∧ (cam.isColor = false →
      (mp4Session (cam :: rest) colorXform polls intr n).1.count Act.createColorSdk = 0
      ∧ (mp4Session (cam :: rest) colorXform polls intr n).1.count Act.createProcessor = 0
      ∧ (mp4Session (cam :: rest) colorXform polls intr n).1.count Act.disposeProcessor = 0
      ∧ (mp4Session (cam :: rest) colorXform polls intr n).1.count Act.disposeColorSdk = 0) := by
  obtain ⟨ic, bd⟩ := cam
  constructor
  · intro hc
    simp only at hc
    subst hc
    have e1 := count_loop_zero polls colorXform intr n 0 Act.createColorSdk
      (fun b h => by cases h) (fun bf h => by cases h)
    have e2 := count_loop_zero polls colorXform intr n 0 Act.createProcessor
      (fun b h => by cases h) (fun bf h => by cases h)
    have e3 := count_loop_zero polls colorXform intr n 0 Act.disposeProcessor
      (fun b h => by cases h) (fun bf h => by cases h)
    have e4 := count_loop_zero polls colorXform intr n 0 Act.disposeColorSdk
      (fun b h => by cases h) (fun bf h => by cases h)
    refine ⟨⟨(mp4LoopGo polls colorXform intr n 0).1
        ++ [Act.disarm, Act.releaseSink, Act.disposeProcessor, Act.disposeColorSdk],
        ?_, ?_, ?_⟩, ?_, ?_, ?_, ?_⟩
    · rw [mp4Session_cons]
      simp
    · intro hmem
      rcases List.mem_append.mp hmem with hl | ht
      · rcases mp4LoopGo_acts polls colorXform intr n 0 _ hl with ⟨b, hb⟩ | ⟨bf, hbf⟩ <;>
          simp_all
      · simp at ht
    · intro hmem
      rcases List.mem_append.mp hmem with hl | ht
      · rcases mp4LoopGo_acts polls colorXform intr n 0 _ hl with ⟨b, hb⟩ | ⟨bf, hbf⟩ <;>
          simp_all
      · simp at ht
    all_goals
      rw [mp4Session_cons]
      simp [List.count_append, e1, e2, e3, e4]
  · intro hc
    simp only at hc
    subst hc
    have e1 := count_loop_zero polls (convertMono bd) intr n 0 Act.createColorSdk
      (fun b h => by cases h) (fun bf h => by cases h)
    have e2 := count_loop_zero polls (convertMono bd) intr n 0 Act.createProcessor
      (fun b h => by cases h) (fun bf h => by cases h)
    have e3 := count_loop_zero polls (convertMono bd) intr n 0 Act.disposeProcessor
      (fun b h => by cases h) (fun bf h => by cases h)
    have e4 := count_loop_zero polls (convertMono bd) intr n 0 Act.disposeColorSdk
      (fun b h => by cases h) (fun bf h => by cases h)
    refine ⟨?_, ?_, ?_, ?_⟩
    all_goals
      rw [mp4Session_cons]
      simp [List.count_append, e1, e2, e3, e4]

/-- Witness for C8, applied to a concrete color session and a concrete
mono session. -/
theorem C8_processor_iff_color_witness :
    (mp4Session [⟨true, 12⟩] id (fun _ => none) none 1).1.count Act.createProcessor = 1
    ∧ (mp4Session [⟨false, 12⟩] id (fun _ => none) none 1).1.count Act.createProcessor = 0
    ∧ (mp4Session [⟨false, 12⟩] id (fun _ => none) none 1).1.count Act.disposeProcessor = 0 :=
  ⟨((C8_processor_iff_color ⟨true, 12⟩ [] id (fun _ => none) none 1).1 rfl).2.2.1,
   ((C8_processor_iff_color ⟨false, 12⟩ [] id (fun _ => none) none 1).2 rfl).2.1,
   ((C8_processor_iff_color ⟨false, 12⟩ [] id (fun _ => none) none 1).2 rfl).2.2.1⟩

/-- C4: with zero cameras discovered, both programs stop before arming
anything and before any polling.  The streaming script prints and
returns; the MP4 script prints its error and then aborts with the
IndexError raised by subscripting the empty camera list, still before
any resource is armed. -/
theorem C4_zero_cameras_abort (colorXform : Buf → Buf)
    (polls pollsV : Nat → Option Buf) (intr : Option Nat) (n intrV : Nat) :
    mp4Session [] colorXform polls intr n = ([Act.logNoCameras], Exit.noCamera)
    ∧ Act.arm ∉ (mp4Session [] colorXform polls intr n).1
    ∧ (∀ b, Act.poll b ∉ (mp4Session [] colorXform polls intr n).1)
    ∧ Act.createProcessor ∉ (mp4Session [] colorXform polls intr n).1
    ∧ (∀ img, Act.write img ∉ (mp4Session [] colorXform polls intr n).1)
    ∧ videoMain [] pollsV intrV = ([VAct.logNoCameras], VExit.noCamera)
    ∧ VAct.arm ∉ (videoMain [] pollsV intrV).1
    ∧ (∀ b, VAct.poll b ∉ (videoMain [] pollsV intrV).1) := by
  refine ⟨rfl, ?_, ?_, ?_, ?_, rfl, ?_, ?_⟩ <;> simp [mp4Session, videoMain]

theorem startupWait_acts (polls : Nat → Option Buf) :
    ∀ fuel i a, a ∈ (startupWait polls fuel i).1 → ∃ b, a = VAct.poll b := by
  intro fuel
  induction fuel with
  | zero => intro i a h; simp [startupWait] at h
  | succ m ih =>
    intro i a h
    rw [startupWait] at h
    cases hp : polls i with
    | some b =>
      rw [hp] at h
      simp at h
      exact ⟨true, h⟩
    | none =>
      rw [hp] at h
      simp at h
      rcases h with h | h
      · exact ⟨false, h⟩
      · exact ih (i + 1) a h

/-- C6 counterexample: in the streaming script with a camera attached,
every poll timing out, and the external interrupt arriving during the
startup first-frame wait (which sits outside the try/finally of
src/video.py lines 69..84), the program exits without ever calling
disarm, so the claim that the camera is disarmed on every exit path of
either program is false. -/
theorem C6_counterexample :
    (videoMain [⟨false, 10⟩] (fun _ => none) 2).2 = VExit.interruptedStartup
    ∧ VAct.disarm ∉ (videoMain [⟨false, 10⟩] (fun _ => none) 2).1
    ∧ VAct.arm ∈ (videoMain [⟨false, 10⟩] (fun _ => none) 2).1 := by
  decide

/-- C6 amended: the MP4 session disarms the camera on every exit path
of its acquisition loop (success, timeout or interrupt), and the
streaming program disarms on every exit path that reaches the display
loop, i.e. whenever the startup wait obtains a first frame before the
interrupt; but when the interrupt fires during the startup first-frame
wait the streaming program exits without calling disarm. -/
theorem C6_amended_disarm_on_exit (cam : Cam) (rest : List Cam)
    (colorXform : Buf → Buf) (polls pollsV : Nat → Option Buf)
    (intr : Option Nat) (n intrV : Nat) :
    Act.disarm ∈ (mp4Session (cam :: rest) colorXform polls intr n).1
    ∧ ((startupWait pollsV intrV 0).2.isSome = true →
        VAct.disarm ∈ (videoMain (cam :: rest) pollsV intrV).1)
    ∧ ((startupWait pollsV intrV 0).2 = none →
        VAct.disarm ∉ (videoMain (cam :: rest) pollsV intrV).1) := by
  refine ⟨?_, ?_, ?_⟩
  · rw [mp4Session_cons]
    simp
  · intro hs
    rw [Option.isSome_iff_exists] at hs
    obtain ⟨⟨ff, j⟩, hsw⟩ := hs
    simp only [videoMain, hsw]
    simp
  · intro hsw
    simp only [videoMain, hsw]
    intro hmem
    rcases List.mem_append.mp hmem with h | h
    · simp at h
    · obtain ⟨b, hb⟩ := startupWait_acts pollsV intrV 0 _ h
      cases hb

/-- Witness for C6 amended: the MP4 session disarms after a timeout; the
streaming program disarms when a first frame arrived before the
interrupt, and does not disarm when the interrupt preceded every
frame. -/
theorem C6_amended_witness :
    Act.disarm ∈ (mp4Session [⟨false, 10⟩] id (fun _ => none) none 1).1
    ∧ VAct.disarm ∈ (videoMain [⟨false, 10⟩] (fun _ => some [1]) 1).1
    ∧ VAct.disarm ∉ (videoMain [⟨false, 10⟩] (fun _ => none) 1).1 :=
  ⟨(C6_amended_disarm_on_exit ⟨false, 10⟩ [] id (fun _ => none)
      (fun _ => some [1]) none 1 1).1,
   (C6_amended_disarm_on_exit ⟨false, 10⟩ [] id (fun _ => none)
      (fun _ => some [1]) none 1 1).2.1 rfl,
   (C6_amended_disarm_on_exit ⟨false, 10⟩ [] id (fun _ => none)
      (fun _ => none) none 1 1).2.2 rfl⟩

/-- C7: in the streaming display loop, every iteration polls no matter
what the previous polls returned (a null result never ends the loop:
the number of polls equals the number of iterations run before the
interrupt), the display sink is updated exactly once per non-null poll
and never for a null one, and a null poll contributes exactly a log
action before the loop goes on. -/
theorem C7_streaming_null_poll_continues (polls : Nat → Option Buf) :
    ∀ fuel i,
      (displayLoop polls fuel i).countP isPollAct = fuel
      ∧ (displayLoop polls fuel i).countP isDisplayAct
          = (List.range fuel).countP (fun j => (polls (i + j)).isSome)
      ∧ (0 < fuel → polls i = none →
          displayLoop polls fuel i
            = VAct.poll false :: VAct.logNoFrame :: displayLoop polls (fuel - 1) (i + 1)) := by
  intro fuel
  induction fuel with
  | zero =>
    intro i
    refine ⟨rfl, rfl, ?_⟩
    intro h
    omega
  | succ m ih =>
    intro i
    have hrange : (List.range (m + 1)).countP (fun j => (polls (i + j)).isSome)
        = (if (polls i).isSome then 1 else 0)
          + (List.range m).countP (fun j => (polls (i + 1 + j)).isSome) := by
      rw [List.range_succ_eq_map, List.countP_cons, List.countP_map]
      have : List.countP ((fun j => (polls (i + j)).isSome) ∘ Nat.succ) (List.range m)
          = List.countP (fun j => (polls (i + 1 + j)).isSome) (List.range m) := by
        refine List.countP_congr fun a _ => ?_
        have : i + Nat.succ a = i + 1 + a := by omega
        simp [Function.comp, this]
      rw [this]
      simp [Nat.add_comm]
    refine ⟨?_, ?_, ?_⟩
    · cases hp : polls i with
      | some b =>
        rw [displayLoop, hp]
        rw [List.countP_cons, List.countP_cons, (ih (i + 1)).1]
        simp [isPollAct]
      | none =>
        rw [displayLoop, hp]
        rw [List.countP_cons, List.countP_cons, (ih (i + 1)).1]
        simp [isPollAct, isDisplayAct]
    · cases hp : polls i with
      | some b =>
        rw [displayLoop, hp]
        rw [List.countP_cons, List.countP_cons, (ih (i + 1)).2.1, hrange, hp]
        simp [isPollAct, isDisplayAct]
        omega
      | none =>
        rw [displayLoop, hp]
        rw [List.countP_cons, List.countP_cons, (ih (i + 1)).2.1, hrange, hp]
        simp [isPollAct, isDisplayAct]
    · intro _ hp
      rw [displayLoop, hp]
      simp

/-- Witness for C7: with every poll returning null and one iteration
before the interrupt, the loop logs and continues with no display
update. -/
theorem C7_streaming_null_poll_witness :
    displayLoop (fun _ => none) 1 0
      = VAct.poll false :: VAct.logNoFrame :: displayLoop (fun _ => none) (1 - 1) (0 + 1)
    ∧ (displayLoop (fun _ => none) 1 0).countP isDisplayAct
        = (List.range 1).countP (fun j => ((fun _ => none : Nat → Option Buf) (0 + j)).isSome) :=
  ⟨(C7_streaming_null_poll_continues (fun _ => none) 1 0).2.2 (by omega) rfl,
   (C7_streaming_null_poll_continues (fun _ => none) 1 0).2.1⟩

theorem startupWait_isSome_iff (polls : Nat → Option Buf) :
    ∀ k i, (startupWait polls k i).2.isSome = true
      ↔ ∃ j, j < k ∧ (polls (i + j)).isSome = true := by
  intro k
  induction k with
  | zero =>
    intro i
    simp [startupWait]
  | succ m ih =>
    intro i
    rw [startupWait]
    cases hp : polls i with
    | some b =>
      constructor
      · intro _
        exact ⟨0, by omega, by simp [hp]⟩
      · intro _
        rfl
    | none =>
      show (startupWait polls m (i + 1)).2.isSome = true ↔ _
      rw [ih (i + 1)]
      constructor
      · rintro ⟨j, hj, hs⟩
        refine ⟨j + 1, by omega, ?_⟩
        have : i + (j + 1) = i + 1 + j := by omega
        rwa [this]
      · rintro ⟨j, hj, hs⟩
        cases j with
        | zero =>
          exfalso
          rw [Nat.add_zero, hp] at hs
          simp at hs
        | succ j2 =>
          refine ⟨j2, by omega, ?_⟩
          have : i + 1 + j2 = i + (j2 + 1) := by omega
          rwa [this]

theorem startupWait_first (polls : Nat → Option Buf) :
    ∀ j k i b, j < k → (∀ j2, j2 < j → polls (i + j2) = none) →
      polls (i + j) = some b →
      startupWait polls k i
        = (List.replicate j (VAct.poll false) ++ [VAct.poll true],
           some (normMinMax b, i + j + 1)) := by
  intro j
  induction j with
  | zero =>
    intro k i b hk _ hs
    obtain ⟨m, rfl⟩ : ∃ m, k = m + 1 := ⟨k - 1, by omega⟩
    have hp : polls i = some b := by simpa using hs
    rw [startupWait, hp]
    simp
  | succ j0 ih =>
    intro k i b hk hnull hs
    obtain ⟨m, rfl⟩ : ∃ m, k = m + 1 := ⟨k - 1, by omega⟩
    have hp : polls i = none := by simpa using hnull 0 (by omega)
    rw [startupWait, hp]
    show (VAct.poll false :: (startupWait polls m (i + 1)).1,
      (startupWait polls m (i + 1)).2) = _
    rw [ih m (i + 1) b (by omega)
      (fun j2 hj2 => by
        have := hnull (j2 + 1) (by omega)
        have hidx : i + (j2 + 1) = i + 1 + j2 := by omega
        rwa [hidx] at this)
      (by
        have hidx : i + (j0 + 1) = i + 1 + j0 := by omega
        rwa [hidx] at hs)]
    have hidx : i + 1 + j0 + 1 = i + (j0 + 1) + 1 := by omega
    rw [hidx]
    simp [List.replicate_succ]

/-- C10: the startup first-frame wait of the streaming script obtains a
first frame within its run exactly when some poll in that window
returns a frame; its trace consists of poll actions only (null polls
are retried silently: no log, no display init, no sink update); when
poll j is the first to return a frame the wait stops right there,
having made j null polls and one successful one; and when no poll
succeeds before the interrupt, the whole program ends right after the
wait, without ever initializing the display. -/
theorem C10_startup_first_frame (polls : Nat → Option Buf) (k i : Nat) :
    ((startupWait polls k i).2.isSome = true
      ↔ ∃ j, j < k ∧ (polls (i + j)).isSome = true)
    ∧ (∀ a ∈ (startupWait polls k i).1, ∃ b, a = VAct.poll b)
    ∧ (∀ j b, j < k → (∀ j2, j2 < j → polls (i + j2) = none) →
        polls (i + j) = some b →
        startupWait polls k i
          = (List.replicate j (VAct.poll false) ++ [VAct.poll true],
             some (normMinMax b, i + j + 1)))
    ∧ ((startupWait polls k 0).2 = none → ∀ cam rest,
        videoMain (cam :: rest) polls k
          = ([VAct.arm, VAct.trigger] ++ (startupWait polls k 0).1,
             VExit.interruptedStartup)) := by
  refine ⟨startupWait_isSome_iff polls k i, startupWait_acts polls k i,
    fun j b hj hnull hs => startupWait_first polls j k i b hj hnull hs, ?_⟩
  intro hsw cam rest
  simp only [videoMain, hsw]

/-- Witness for C10: with the first frame arriving at poll index 1 and
the interrupt at index 3, the wait makes one silent null poll, then
succeeds and stops. -/
theorem C10_startup_first_frame_witness :
    (startupWait (fun i => if i = 1 then some [5] else none) 3 0).2.isSome = true
    ∧ startupWait (fun i => if i = 1 then some [5] else none) 3 0
        = (List.replicate 1 (VAct.poll false) ++ [VAct.poll true],
           some (normMinMax [5], 0 + 1 + 1)) :=
  ⟨(C10_startup_first_frame (fun i => if i = 1 then some [5] else none) 3 0).1.mpr
      ⟨1, by omega, rfl⟩,
   (C10_startup_first_frame (fun i => if i = 1 then some [5] else none) 3 0).2.2.1
      1 [5] (by omega) (fun j2 hj2 => by interval_cases j2; rfl) rfl⟩

theorem listMin_le (l : List Nat) : ∀ x ∈ l, listMin l ≤ x := by
  induction l with
  | nil => simp
  | cons a t ih =>
    cases t with
    | nil =>
      intro x hx
      simp at hx
      subst hx
      simp [listMin]
    | cons b t2 =>
      intro x hx
      rw [listMin]
      rcases List.mem_cons.mp hx with rfl | hx2
      · exact min_le_left _ _
      · exact le_trans (min_le_right _ _) (ih x hx2)

theorem listMin_mem (l : List Nat) (h : l ≠ []) : listMin l ∈ l := by
  induction l with
  | nil => exact absurd rfl h
  | cons a t ih =>
    cases t with
    | nil => simp [listMin]
    | cons b t2 =>
      rw [listMin]
      rcases min_choice a (listMin (b :: t2)) with h1 | h1 <;> rw [h1]
      · exact List.mem_cons_self _ _
      · exact List.mem_cons_of_mem _ (ih (by simp))

theorem le_listMax (l : List Nat) : ∀ x ∈ l, x ≤ listMax l := by
  induction l with
  | nil => simp
  | cons a t ih =>
    cases t with
    | nil =>
      intro x hx
      simp at hx
      subst hx
      simp [listMax]
    | cons b t2 =>
      intro x hx
      rw [listMax]
      rcases List.mem_cons.mp hx with rfl | hx2
      · exact le_max_left _ _
      · exact le_trans (ih x hx2) (le_max_right _ _)

theorem listMax_mem (l : List Nat) (h : l ≠ []) : listMax l ∈ l := by
  induction l with
  | nil => exact absurd rfl h
  | cons a t ih =>
    cases t with
    | nil => simp [listMax]
    | cons b t2 =>
      rw [listMax]
      rcases max_choice a (listMax (b :: t2)) with h1 | h1 <;> rw [h1]
      · exact List.mem_cons_self _ _
      · exact List.mem_cons_of_mem _ (ih (by simp))

theorem normEntry_le_255 (mn mx x : Nat) (hx : x ≤ mx) :
    normEntry mn mx x ≤ 255 := by
  unfold normEntry
  split
  · omega
  · by_cases hb : mx - mn = 0
    · rw [hb]
      simp
    · have hq : 0 < 2 * (mx - mn) := by omega
      have hxm : x - mn ≤ mx - mn := by omega
      exact Nat.lt_succ_iff.mp ((Nat.div_lt_iff_lt_mul hq).mpr (by omega))

theorem normEntry_at_min (mn mx : Nat) (h : mn < mx) :
    normEntry mn mx mn = 0 := by
  unfold normEntry
  rw [if_neg (by omega)]
  have h2 : 2 * ((mn - mn) * 255) + (mx - mn) = mx - mn := by omega
  rw [h2]
  exact Nat.div_eq_of_lt (by omega)

theorem normEntry_at_max (mn mx : Nat) (h : mn < mx) :
    normEntry mn mx mx = 255 := by
  unfold normEntry
  rw [if_neg (by omega)]
  have h2 : 2 * ((mx - mn) * 255) + (mx - mn) = 2 * (mx - mn) * 255 + (mx - mn) := by
    ring
  rw [h2, Nat.mul_add_div (by omega), Nat.div_eq_of_lt (by omega)]

theorem normEntry_const (mn x : Nat) : normEntry mn mn x = 0 := by
  unfold normEntry
  simp

theorem displayLoop_display_norm (polls : Nat → Option Buf) :
    ∀ fuel i b, VAct.display b ∈ displayLoop polls fuel i →
      ∃ raw j, polls j = some raw ∧ b = normMinMax raw := by
  intro fuel
  induction fuel with
  | zero =>
    intro i b h
    simp [displayLoop] at h
  | succ m ih =>
    intro i b h
    rw [displayLoop] at h
    cases hp : polls i with
    | some c =>
      rw [hp] at h
      simp at h
      rcases h with h | h
      · exact ⟨c, i, hp, h⟩
      · exact ih (i + 1) b h
    | none =>
      rw [hp] at h
      simp at h
      exact ih (i + 1) b h

/-- C9: the image delivered to the display is the min-max normalization
of the polled raw buffer; every sample of a normalized nonempty buffer
lies in 0..255; when the buffer has distinct minimum and maximum, the
minimum sample maps to 0 and the maximum to 255; and a constant buffer
normalizes to all zeros rather than failing. -/
theorem C9_normalized_display_range (l : Buf) (hne : l ≠ []) :
    normMinMax l = l.map (normEntry (listMin l) (listMax l))
    ∧ (∀ y ∈ normMinMax l, y ≤ 255)
    ∧ (listMin l ≠ listMax l →
        listMin l ∈ l ∧ listMax l ∈ l
        ∧ normEntry (listMin l) (listMax l) (listMin l) = 0
        ∧ normEntry (listMin l) (listMax l) (listMax l) = 255)
    ∧ (listMin l = listMax l → normMinMax l = l.map fun _ => 0)
    ∧ (∀ polls fuel i b, VAct.display b ∈ displayLoop polls fuel i →
        ∃ raw j, polls j = some raw ∧ b = normMinMax raw) := by
  have hmm : listMin l ≤ listMax l := listMin_le l _ (listMax_mem l hne)
  refine ⟨rfl, ?_, ?_, ?_, fun polls => displayLoop_display_norm polls⟩
  · intro y hy
    unfold normMinMax at hy
    rcases List.mem_map.mp hy with ⟨x, hx, rfl⟩
    exact normEntry_le_255 _ _ _ (le_listMax l x hx)
  · intro hneq
    have hlt : listMin l < listMax l := lt_of_le_of_ne hmm hneq
    exact ⟨listMin_mem l hne, listMax_mem l hne,
      normEntry_at_min _ _ hlt, normEntry_at_max _ _ hlt⟩
  · intro heq
    unfold normMinMax
    refine List.map_congr_left fun x _ => ?_
    rw [← heq]
    exact normEntry_const _ _

/-- Witness for C9: a nonconstant buffer maps its minimum to 0 and its
maximum to 255 with every output at most 255, and a constant buffer
normalizes to zeros. -/
theorem C9_normalized_display_range_witness :
    (∀ y ∈ normMinMax [3, 7, 5], y ≤ 255)
    ∧ normEntry (listMin [3, 7, 5]) (listMax [3, 7, 5]) (listMin [3, 7, 5]) = 0
    ∧ normEntry (listMin [3, 7, 5]) (listMax [3, 7, 5]) (listMax [3, 7, 5]) = 255
    ∧ normMinMax [5, 5] = List.map (fun _ => 0) [5, 5] :=
  ⟨(C9_normalized_display_range [3, 7, 5] (by simp)).2.1,
   ((C9_normalized_display_range [3, 7, 5] (by simp)).2.2.1 (by decide)).2.2.1,
   ((C9_normalized_display_range [3, 7, 5] (by simp)).2.2.1 (by decide)).2.2.2,
   (C9_normalized_display_range [5, 5] (by simp)).2.2.2.1 (by decide)⟩
